import Mathlib

/-!
Verification of the cached resolution layer and language negotiation of
`src/main.py`.

The embedding is shallow:
* Python strings are `String` / `List Char`; q-values are modelled as exact
  rationals (`ℚ`).  Python's `float(...)` parser is modelled for the standard
  decimal forms `[ws] [sign] digits [. digits] [(e|E) [sign] digits] [ws]`;
  exotic inputs (inf/nan, digit underscores) make the model return `none`,
  which the caller defaults to `1.0` exactly as for any other unparsable
  weight.
* JSON documents are the inductive `JValue`; Python dicts are association
  lists in insertion order (`dictGet` / `dictSet` / `dictPop` mirror
  `d.get`, `d[k] = v`, `d.pop`).
* The filesystem is a function `String → Option JValue`; `none` models
  `FileNotFoundError`.
* Exceptions become the `Failure` type threaded through `Except`; each
  stateful loader returns its outcome together with the caches it leaves
  behind.
* `time.monotonic()` timestamps are rationals passed explicitly.
* Module-level configuration (supported languages, default language, TTLs,
  size caps) is passed as explicit parameters; the numeric/string literals
  below are the environment-variable defaults from the source.
-/

/-! ### Configuration defaults (src/main.py lines 11-37) -/

def DATA_DIR : String := "data"

def I18N_DIR : String := "i18n"

def UNITS_FILE : String := "units/units.json"

def MAX_LANG_HEADER_LEN : Nat := 512

def MAX_LANG_ENTRIES : Nat := 12

/-! ### Python string primitives used by the source -/

/-- Python `str.split(sep)` for a one-character separator: `"".split(",") = [""]`. -/
def splitChar (c : Char) : List Char → List (List Char)
  | [] => [[]]
  | x :: r =>
    if x = c then [] :: splitChar c r
    else
      match splitChar c r with
      | [] => [[x]]
      | g :: gs => (x :: g) :: gs

/-- Does `sep` occur at the head of `s`? -/
def headMatches : List Char → List Char → Bool
  | [], _ => true
  | _ :: _, [] => false
  | c :: cr, x :: xr => c = x && headMatches cr xr

/-- Python `s.split(sep, 1)` for a non-empty separator, as the pieces before and
after the first occurrence; `none` when `sep` does not occur (so `sep in s` is
`(splitOnceSub sep s).isSome`). -/
def splitOnceSub (sep : List Char) : List Char → Option (List Char × List Char)
  | [] => none
  | x :: r =>
    if headMatches sep (x :: r) then some ([], (x :: r).drop sep.length)
    else
      match splitOnceSub sep r with
      | some pr => some (x :: pr.1, pr.2)
      | none => none

/-- The whitespace stripped by Python `str.strip()` (ASCII part). -/
def isPySpace (c : Char) : Bool :=
  c = ' ' || c = '\t' || c = '\n' || c = '\r' || c = '\x0b' || c = '\x0c'

/-- Python `str.strip()`. -/
def pyStrip (s : List Char) : List Char :=
  ((s.dropWhile isPySpace).reverse.dropWhile isPySpace).reverse

/-- Python `str.lower()` (ASCII part). -/
def pyLower (s : List Char) : List Char := s.map Char.toLower

/-- The characters of `s` before the first occurrence of `c` (all of `s` when
`c` does not occur): Python `s.split(c)[0]`. -/
def takeUntilChar (c : Char) : List Char → List Char
  | [] => []
  | x :: r => if x = c then [] else x :: takeUntilChar c r

/-- `lang.split("-")[0]`: the base subtag of a language tag. -/
def pyBase (l : String) : String := String.mk (takeUntilChar '-' l.data)

/-- Python `"-" in lang`. -/
def hasDash (l : String) : Bool := l.data.contains '-'

/-! ### Python `float()` on the q-value strings -/

/-- Decimal digit string to a natural number. -/
def digitsVal (cs : List Char) : Nat :=
  cs.foldl (fun a c => a * 10 + (c.toNat - 48)) 0

/-- Python `float(s)` for finite decimal literals, as an exact rational.
Returns `none` where Python raises `ValueError` (and on the unmodelled exotic
forms, see the header comment). -/
def parseFloat (s : List Char) : Option ℚ :=
  let t := pyStrip s
  let sgn : Int × List Char :=
    match t with
    | '+' :: r => (1, r)
    | '-' :: r => (-1, r)
    | _ => (1, t)
  let ip := sgn.2.takeWhile Char.isDigit
  let r1 := sgn.2.dropWhile Char.isDigit
  let fpr : List Char × List Char :=
    match r1 with
    | '.' :: r => (r.takeWhile Char.isDigit, r.dropWhile Char.isDigit)
    | _ => ([], r1)
  if ip = [] ∧ fpr.1 = [] then none
  else
    match fpr.2 with
    | [] => some (mkRat (sgn.1 * (digitsVal (ip ++ fpr.1) : Int)) (10 ^ fpr.1.length))
    | e :: r3 =>
      if e = 'e' ∨ e = 'E' then
        let esgn : Int × List Char :=
          match r3 with
          | '+' :: r => (1, r)
          | '-' :: r => (-1, r)
          | _ => (1, r3)
        let ed := esgn.2.takeWhile Char.isDigit
        let r5 := esgn.2.dropWhile Char.isDigit
        if ed = [] ∨ r5 ≠ [] then none
        else
          let ex : Int := esgn.1 * (digitsVal ed : Int)
          some (mkRat (sgn.1 * (digitsVal (ip ++ fpr.1) : Int) * 10 ^ ex.toNat)
            (10 ^ fpr.1.length * 10 ^ (-ex).toNat))
      else none

/-! ### Language negotiation (src/main.py lines 100-137) -/

/-- A parsed Accept-Language candidate: lowered tag, weight, original position. -/
abbrev Cand := String × ℚ × Nat

/-- Parse the header into candidates: truncate to `MAX_LANG_HEADER_LEN`
characters, split on commas, strip, drop empties, keep the first
`MAX_LANG_ENTRIES`, then read the optional `;q=` weight (default `1.0`, also
on an unparsable weight) and lowercase the tag. -/
def parseCandidates (header : String) : List Cand :=
  let h := header.data.take MAX_LANG_HEADER_LEN
  let parts := (((splitChar ',' h).map pyStrip).filter (fun p => !p.isEmpty)).take MAX_LANG_ENTRIES
  parts.enum.map (fun pr =>
    match splitOnceSub [';', 'q', '='] pr.2 with
    | some lq => (String.mk (pyLower lq.1), ((parseFloat lq.2).getD 1 : ℚ), pr.1)
    | none => (String.mk (pyLower pr.2), (1 : ℚ), pr.1))

/-- The sort key order of `parsed.sort(key=lambda x: (-x[1], x[2]))`: weight
descending, then original position ascending. -/
def candLE (a b : Cand) : Prop :=
  b.2.1 < a.2.1 ∨ (a.2.1 = b.2.1 ∧ a.2.2 ≤ b.2.2)

instance candLE.decRel : DecidableRel candLE := fun a b => by
  unfold candLE; infer_instance

/-- The candidates sorted by weight descending, position ascending (the sort
key has a distinct position component per element, so the sorted list is the
unique one and stability is immaterial). -/
def sortedCandidates (header : String) : List Cand :=
  List.insertionSort candLE (parseCandidates header)

/-- The selection loop of `negotiate_language`: skip weights `<= 0`, try the
exact tag against the supported set, then the base subtag of a dashed tag;
fall through to the default. -/
def pickLang (supported : List String) (defaultLang : String) : List Cand → String
  | [] => defaultLang
  | (lang, q, _) :: rest =>
    if q ≤ 0 then pickLang supported defaultLang rest
    else if lang ∈ supported then lang
    else if hasDash lang = true ∧ pyBase lang ∈ supported then pyBase lang
    else pickLang supported defaultLang rest

/-- `negotiate_language(accept_language_header)` with the configured supported
set and default language made explicit parameters. -/
def negotiate_language (supported : List String) (defaultLang : String)
    (header : String) : String :=
  if header = "" then defaultLang
  else pickLang supported defaultLang (sortedCandidates header)

/-! ### JSON values and Python dicts -/

/-- A parsed JSON document (what `json.load` can produce). -/
inductive JValue where
  | obj (fields : List (String × JValue))
  | arr (items : List JValue)
  | str (s : String)
  | num (q : ℚ)
  | bool (b : Bool)
  | null

/-- A flat JSON object, i.e. a Python dict from string keys. -/
abbrev JObj := List (String × JValue)

/-- Python truthiness of a JSON value. -/
def JValue.truthy : JValue → Bool
  | .null => false
  | .bool b => b
  | .num q => decide (q ≠ 0)
  | .str s => decide (s ≠ "")
  | .arr l => !l.isEmpty
  | .obj m => !m.isEmpty

/-- `isinstance(v, dict)`. -/
def JValue.isObj : JValue → Bool
  | .obj _ => true
  | _ => false

/-- `d.get(k)`. -/
def dictGet {α : Type} : List (String × α) → String → Option α
  | [], _ => none
  | (k', v) :: r, k => if k' = k then some v else dictGet r k

/-- `d[k] = v`: replace in place when the key exists, else append (Python
dicts keep insertion order). -/
def dictSet {α : Type} : List (String × α) → String → α → List (String × α)
  | [], k, v => [(k, v)]
  | (k', v') :: r, k, v =>
    if k' = k then (k, v) :: r else (k', v') :: dictSet r k v

/-- `d.pop(k, None)`. -/
def dictPop {α : Type} (m : List (String × α)) (k : String) : List (String × α) :=
  m.filter (fun p => decide (p.1 ≠ k))

/-! ### Exceptions -/

/-- The failure signals of the resolution layer.  `notFound` is
`FileNotFoundError` (the loaders catch it internally, it is listed to state
distinctness); `malformed` is `ValueError`; `noDescriptions` is the
`RuntimeError` for an exhausted description chain; `emptyPop` is the
`StopIteration` that `next(iter({}))` would raise in `_bounded_put`. -/
inductive Failure where
  | notFound
  | malformed (msg : String)
  | noDescriptions
  | emptyPop
deriving DecidableEq

/-! ### Cache entries (src/main.py lines 78-97) -/

/-- A positive cache entry `{"data"/"units": value, "loaded_at_mono": t}`. -/
structure CacheEntry (α : Type) where
  value : α
  loaded_at_mono : ℚ

/-- `cache_fresh(entry, ttl_seconds, now_mono)`: the entry exists and its
monotonic age is below the TTL. -/
def cache_fresh {α : Type} (entry : Option (CacheEntry α)) (ttl now : ℚ) : Bool :=
  match entry with
  | none => false
  | some e => decide (now - e.loaded_at_mono < ttl)

/-- `entry["data"]` / `entry["units"]` on an entry known to exist (the `none`
branch is unreachable: it is only read behind a `cache_fresh` check). -/
def entry_data {α : Type} [Inhabited α] : Option (CacheEntry α) → α
  | some e => e.value
  | none => default

instance : Inhabited JValue := ⟨JValue.null⟩

/-- `_bounded_put(cache, key, value, max_entries)`: evict the first (oldest)
entry when full, then bind the key.  `none` models the `StopIteration` that
`next(iter({}))` raises when asked to evict from an empty dict
(only possible when `max_entries = 0`). -/
def _bounded_put {α : Type} (cache : List (String × α)) (key : String) (value : α)
    (max_entries : Nat) : Option (List (String × α)) :=
  if max_entries ≤ cache.length then
    match cache with
    | [] => none
    | _ :: rest => some (dictSet rest key value)
  else some (dictSet cache key value)

/-- A sequence of `_bounded_put` calls with a shared bound and value. -/
def putSeq {α : Type} (N : Nat) (v : α) : List String → List (String × α) → Option (List (String × α))
  | [], acc => some acc
  | k :: ks, acc =>
    match _bounded_put acc k v N with
    | some acc' => putSeq N v ks acc'
    | none => none

/-! ### Identifier validation and paths (src/main.py lines 63-74, 161-168) -/

/-- `_ID_RE.fullmatch(item_id)`: exactly 4 chars from `[a-z0-9]`. -/
def validId (s : String) : Bool :=
  s.length == 4 && s.data.all (fun c => c.isLower || c.isDigit)

def _path_for_i18n (lang : String) : String := I18N_DIR ++ "/" ++ lang ++ ".json"

def _path_for_data (item_id : String) : String := DATA_DIR ++ "/" ++ item_id ++ ".json"

/-! ### Descriptions (src/main.py lines 177-205) -/

/-- The candidate loop of `get_descriptions`: `None`/empty/already-tried
candidates are skipped; a fresh cache entry is returned; a loaded file must be
a flat object (else `ValueError`, with the caches untouched); `FileNotFoundError`
moves to the next candidate; an exhausted loop is the `RuntimeError`. -/
def desc_go (fs : String → Option JValue) (ttl now : ℚ)
    (cache : List (String × CacheEntry JObj)) :
    List (Option String) → List String →
      Except Failure JObj × List (String × CacheEntry JObj)
  | [], _ => (.error .noDescriptions, cache)
  | none :: rest, tried => desc_go fs ttl now cache rest tried
  | some cand :: rest, tried =>
    if cand = "" ∨ cand ∈ tried then desc_go fs ttl now cache rest tried
    else if cache_fresh (dictGet cache cand) ttl now then
      (.ok (entry_data (dictGet cache cand)), cache)
    else
      match fs (_path_for_i18n cand) with
      | some (.obj m) => (.ok m, dictSet cache cand ⟨m, now⟩)
      | some _ => (.error (.malformed "i18n file must be an object/map"), cache)
      | none => desc_go fs ttl now cache rest (cand :: tried)

/-- `get_descriptions(lang)`: the loop over
`(lang, lang.split("-")[0] if "-" in lang else None, DEFAULT_LANG)`. -/
def get_descriptions (fs : String → Option JValue) (defaultLang : String)
    (ttl now : ℚ) (cache : List (String × CacheEntry JObj)) (lang : String) :
    Except Failure JObj × List (String × CacheEntry JObj) :=
  desc_go fs ttl now cache
    [some lang, if hasDash lang then some (pyBase lang) else none, some defaultLang] []

/-- The same per-candidate behaviour run over a plain candidate chain (no
skip-set: the chain is assumed already deduplicated).  Used to state the
fallback-chain claim. -/
def chain_run (fs : String → Option JValue) (ttl now : ℚ)
    (cache : List (String × CacheEntry JObj)) :
    List String → Except Failure JObj × List (String × CacheEntry JObj)
  | [] => (.error .noDescriptions, cache)
  | c :: rest =>
    if cache_fresh (dictGet cache c) ttl now then
      (.ok (entry_data (dictGet cache c)), cache)
    else
      match fs (_path_for_i18n c) with
      | some (.obj m) => (.ok m, dictSet cache c ⟨m, now⟩)
      | some _ => (.error (.malformed "i18n file must be an object/map"), cache)
      | none => chain_run fs ttl now cache rest

/-- The candidates that the tried-set loop of `desc_go` actually visits. -/
def stripCands : List (Option String) → List String → List String
  | [], _ => []
  | none :: r, t => stripCands r t
  | some c :: r, t =>
    if c = "" ∨ c ∈ t then stripCands r t else c :: stripCands r (c :: t)

/-- Deduplicate keeping the first occurrence of each element. -/
def dedupAux : List String → List String → List String
  | [], _ => []
  | x :: r, seen => if x ∈ seen then dedupAux r seen else x :: dedupAux r (x :: seen)

def dedupKeepFirst (l : List String) : List String := dedupAux l []

/-- Modelled from the spec: the description candidate chain
`[language, baseOf(language) if different, default]`, deduplicated while
preserving order. -/
def descChainSpec (defaultLang lang : String) : List String :=
  dedupKeepFirst ([lang] ++ (if pyBase lang = lang then [] else [pyBase lang]) ++ [defaultLang])

/-! ### Units (src/main.py lines 209-230) -/

/-- `get_units_map()`: singleton-keyed cache with its own TTL; a missing file
yields (and caches) the empty mapping; a present non-object file raises
`ValueError`. -/
def get_units_map (fs : String → Option JValue) (unitsTTL now : ℚ)
    (cache : List (String × CacheEntry JObj)) :
    Except Failure JObj × List (String × CacheEntry JObj) :=
  if cache_fresh (dictGet cache "units") unitsTTL now then
    (.ok (entry_data (dictGet cache "units")), cache)
  else
    match fs UNITS_FILE with
    | some (.obj units) => (.ok units, dictSet cache "units" ⟨units, now⟩)
    | some _ => (.error (.malformed "units file must be an object/map"), cache)
    | none => (.ok [], dictSet cache "units" ⟨[], now⟩)

/-! ### Per-identifier data (src/main.py lines 234-282) -/

/-- The positive data cache and the negative (miss) cache. -/
structure DataState where
  dataCache : List (String × CacheEntry JObj)
  missCache : List (String × ℚ)

/-- `miss_exp and miss_exp > now_mono`: an unexpired (and truthy) miss record. -/
def miss_active (st : DataState) (item_id : String) (now : ℚ) : Bool :=
  match dictGet st.missCache item_id with
  | some exp => decide (exp ≠ 0) && decide (now < exp)
  | none => false

/-- `raw.get("data") or {}`. -/
def pyDataField (raw : JObj) : JValue :=
  match dictGet raw "data" with
  | some v => if v.truthy then v else .obj []
  | none => .obj []

/-- The positive-cache write of `get_data_map` after a successful load, split
by the outcome of `_bounded_put`; on success the id's miss record is removed
(`if item_id in _DATA_MISS_CACHE: _DATA_MISS_CACHE.pop(item_id, None)`). -/
def data_store_put (st : DataState) (item_id : String) (dm : JObj) :
    Option (List (String × CacheEntry JObj)) → Except Failure (Option JObj) × DataState
  | some dc' =>
    (.ok (some dm),
      ⟨dc',
        if (dictGet st.missCache item_id).isSome then dictPop st.missCache item_id
        else st.missCache⟩)
  | none => (.error .emptyPop, st)

/-- The `"data"`-field dispatch of `get_data_map`: a mapping goes through
`_bounded_put` into the positive cache (then the id's miss record is
cleared), anything else raises `ValueError`. -/
def data_field_case (maxData : Nat) (now : ℚ) (st : DataState) (item_id : String) :
    JValue → Except Failure (Option JObj) × DataState
  | .obj dm =>
    data_store_put st item_id dm (_bounded_put st.dataCache item_id ⟨dm, now⟩ maxData)
  | _ => (.error (.malformed "data must be an object/map"), st)

/-- The not-found branch of `get_data_map`: remember the miss until
`now + min(60, DATA_CACHE_TTL_SECONDS)` and report absence. -/
def data_miss_put (st : DataState) :
    Option (List (String × ℚ)) → Except Failure (Option JObj) × DataState
  | some mc' => (.ok none, ⟨st.dataCache, mc'⟩)
  | none => (.error .emptyPop, st)

/-- The loaded-file dispatch of `get_data_map`. -/
def data_file_case (dataTTL : ℚ) (maxData maxMiss : Nat) (now : ℚ) (st : DataState)
    (item_id : String) : Option JValue → Except Failure (Option JObj) × DataState
  | some (.obj raw) => data_field_case maxData now st item_id (pyDataField raw)
  | some _ => (.error (.malformed "data file must be an object/map"), st)
  | none => data_miss_put st (_bounded_put st.missCache item_id (now + min 60 dataTTL) maxMiss)

/-- `get_data_map(item_id)`: negative cache, then positive cache, then load
(the per-step dispatchers above are the arms of the source's single
function).  The id is validated (inside `_path_for_data`) before touching the
disk; a non-object file or a truthy non-object `"data"` field raises
`ValueError`; a missing file is negative-cached and reported as absence
(`ok none`); a successful load clears the id's miss record. -/
def get_data_map (fs : String → Option JValue) (dataTTL : ℚ) (maxData maxMiss : Nat)
    (now : ℚ) (st : DataState) (item_id : String) :
    Except Failure (Option JObj) × DataState :=
  if miss_active st item_id now then (.ok none, st)
  else if cache_fresh (dictGet st.dataCache item_id) dataTTL now then
    (.ok (some (entry_data (dictGet st.dataCache item_id))), st)
  else if validId item_id then
    data_file_case dataTTL maxData maxMiss now st item_id (fs (_path_for_data item_id))
  else (.error (.malformed "invalid id: must be exactly 4 chars [a-z0-9]"), st)

/-! ### Output key ordering (src/main.py lines 285-304) -/

/-- `_determine_output_keys(descriptions, values_map, units_map)` with the
`CANON_KEYS` configuration explicit: the canonical order verbatim when
configured, else description keys, extra value keys, extra unit keys, each
group sorted. -/
def _determine_output_keys (canon : List String)
    (descriptions values_map units_map : List (String × JValue)) : List String :=
  if canon = [] then
    let desc_keys := (descriptions.map Prod.fst).toFinset
    let val_keys := (values_map.map Prod.fst).toFinset
    let unit_keys := (units_map.map Prod.fst).toFinset
    Finset.sort (· ≤ ·) desc_keys ++ Finset.sort (· ≤ ·) (val_keys \ desc_keys)
      ++ Finset.sort (· ≤ ·) ((unit_keys \ desc_keys) \ val_keys)
  else canon

/-! ## Helper lemmas -/

instance candLE.isTotal : IsTotal Cand candLE := by
  constructor
  intro a b
  unfold candLE
  rcases lt_trichotomy b.2.1 a.2.1 with h | h | h
  · exact Or.inl (Or.inl h)
  · rcases le_total a.2.2 b.2.2 with hi | hi
    · exact Or.inl (Or.inr ⟨h.symm, hi⟩)
    · exact Or.inr (Or.inr ⟨h, hi⟩)
  · exact Or.inr (Or.inl h)

instance candLE.isTrans : IsTrans Cand candLE := by
  constructor
  intro a b c hab hbc
  rcases hab with hab | ⟨hab, hab'⟩ <;> rcases hbc with hbc | ⟨hbc, hbc'⟩
  · exact Or.inl (hbc.trans hab)
  · exact Or.inl (hbc ▸ hab)
  · exact Or.inl (by rw [hab]; exact hbc)
  · exact Or.inr ⟨hab.trans hbc, hab'.trans hbc'⟩

theorem pickLang_mem (S : List String) (d : String) (hd : d ∈ S) :
    ∀ l : List Cand, pickLang S d l ∈ S := by
  intro l
  induction l with
  | nil => simpa [pickLang] using hd
  | cons c rest ih =>
    obtain ⟨lang, q, i⟩ := c
    simp only [pickLang]
    split
    · exact ih
    · split
      · next hlang => exact hlang
      · split
        · next hbase => exact hbase.2
        · exact ih

theorem pickLang_default_or_pos (S : List String) (d : String) :
    ∀ l : List Cand, pickLang S d l = d ∨
      ∃ c ∈ l, 0 < c.2.1 ∧ (pickLang S d l = c.1 ∨ pickLang S d l = pyBase c.1) := by
  intro l
  induction l with
  | nil => exact Or.inl rfl
  | cons c rest ih =>
    obtain ⟨lang, q, i⟩ := c
    simp only [pickLang]
    split
    · rcases ih with h | ⟨c, hc, hq, hr⟩
      · exact Or.inl h
      · exact Or.inr ⟨c, List.mem_cons_of_mem _ hc, hq, hr⟩
    · next hq =>
      split
      · exact Or.inr ⟨(lang, q, i), List.mem_cons_self _ _, lt_of_not_le hq, Or.inl rfl⟩
      · split
        · exact Or.inr ⟨(lang, q, i), List.mem_cons_self _ _, lt_of_not_le hq, Or.inr rfl⟩
        · rcases ih with h | ⟨c, hc, hq', hr⟩
          · exact Or.inl h
          · exact Or.inr ⟨c, List.mem_cons_of_mem _ hc, hq', hr⟩

/-! ## Claims -/

/-- C1: for every raw header string, every supported-language set `S` and
every default language `d ∈ S`, `negotiate_language` returns a member of
`S`. -/
theorem C1_negotiate_in_supported (header : String) (S : List String) (d : String)
    (hd : d ∈ S) : negotiate_language S d header ∈ S := by
  unfold negotiate_language
  split
  · exact hd
  · exact pickLang_mem S d hd _

theorem C1_negotiate_in_supported_witness :
    "en" ∈ ["en", "de"] ∧ negotiate_language ["en", "de"] "en" "xx-YY" ∈ ["en", "de"] :=
  ⟨by decide, C1_negotiate_in_supported "xx-YY" ["en", "de"] "en" (by decide)⟩

/-- C5: the candidates are considered sorted by weight descending with ties
broken by original position ascending (the selection loop runs on
`sortedCandidates`, which is a permutation of the parsed candidates pairwise
ordered by that key); a positive-weight candidate whose exact tag is in the
supported set is selected as that exact tag (before any base-subtag
reduction); and concretely
`negotiate_language("de-CH;q=0.9,fr;q=0.9", {"de","fr"}, "en") = "de"`. -/
theorem C5_sorted_exact_before_base :
    (∀ header : String,
        (sortedCandidates header).Pairwise candLE ∧
          (sortedCandidates header).Perm (parseCandidates header)) ∧
    (∀ (S : List String) (d lang : String) (q : ℚ) (i : Nat) (rest : List Cand),
        0 < q → lang ∈ S → pickLang S d ((lang, q, i) :: rest) = lang) ∧
    negotiate_language ["de", "fr"] "en" "de-CH;q=0.9,fr;q=0.9" = "de" := by
  refine ⟨fun header => ⟨?_, ?_⟩, fun S d lang q i rest hq hlang => ?_, by decide⟩
  · exact List.sorted_insertionSort candLE _
  · exact List.perm_insertionSort candLE _
  · simp only [pickLang]
    rw [if_neg (not_le.mpr hq), if_pos hlang]

theorem C5_sorted_exact_before_base_witness :
    (0 : ℚ) < 1 ∧ "fr" ∈ ["fr"] ∧ pickLang ["fr"] "en" [("fr", 1, 0)] = "fr" :=
  ⟨by decide, by decide,
    C5_sorted_exact_before_base.2.1 ["fr"] "en" "fr" 1 0 [] (by decide) (by decide)⟩

/-- C6: a candidate with weight `<= 0` is never selected: the negotiation
result is either the configured default or comes from a candidate of strictly
positive weight (as its exact tag or its base subtag); and concretely
`negotiate_language("fr;q=0", {"fr"}, "en") = "en"`. -/
theorem C6_zero_weight_never_selected :
    (∀ (S : List String) (d header : String),
        negotiate_language S d header = d ∨
          ∃ c ∈ sortedCandidates header, 0 < c.2.1 ∧
            (negotiate_language S d header = c.1 ∨
              negotiate_language S d header = pyBase c.1)) ∧
    negotiate_language ["fr"] "en" "fr;q=0" = "en" := by
  refine ⟨fun S d header => ?_, by decide⟩
  by_cases hh : header = ""
  · left
    simp [negotiate_language, hh]
  · have h := pickLang_default_or_pos S d (sortedCandidates header)
    simpa [negotiate_language, hh] using h

theorem dictGet_dictSet_self {α : Type} (m : List (String × α)) (k : String) (v : α) :
    dictGet (dictSet m k v) k = some v := by
  induction m with
  | nil => simp [dictSet, dictGet]
  | cons p r ih =>
    obtain ⟨k', v'⟩ := p
    by_cases h : k' = k
    · simp [dictSet, h, dictGet]
    · simp [dictSet, h, dictGet, ih]

theorem dictGet_dictPop_self {α : Type} (m : List (String × α)) (k : String) :
    dictGet (dictPop m k) k = none := by
  induction m with
  | nil => rfl
  | cons p r ih =>
    obtain ⟨k', v'⟩ := p
    by_cases h : k' = k
    · simpa [dictPop, h] using ih
    · simpa [dictPop, dictGet, h] using ih

theorem dictSet_length_le {α : Type} (m : List (String × α)) (k : String) (v : α) :
    (dictSet m k v).length ≤ m.length + 1 := by
  induction m with
  | nil => simp [dictSet]
  | cons p r ih =>
    obtain ⟨k', v'⟩ := p
    by_cases h : k' = k
    · simp [dictSet, h]
    · simp only [dictSet, if_neg h, List.length_cons]
      omega

theorem bounded_put_length_le {α : Type} (cache : List (String × α)) (k : String) (v : α)
    (N : Nat) (out : List (String × α)) (hle : cache.length ≤ N)
    (h : _bounded_put cache k v N = some out) : out.length ≤ N := by
  unfold _bounded_put at h
  split at h
  · next hfull =>
    match cache, hle, hfull, h with
    | [], _, hfull, h => exact absurd h (by simp)
    | e :: t, hle, hfull, h =>
      obtain rfl : dictSet t k v = out := by injection h
      have := dictSet_length_le t k v
      simp only [List.length_cons] at hle
      omega
  · next hroom =>
    obtain rfl : dictSet cache k v = out := by injection h
    have := dictSet_length_le cache k v
    omega

theorem bounded_put_exists {α : Type} (cache : List (String × α)) (k : String) (v : α)
    (N : Nat) (hN : 1 ≤ N) : ∃ out, _bounded_put cache k v N = some out := by
  unfold _bounded_put
  split
  · next hfull =>
    match cache, hfull with
    | [], hfull => simp at hfull; omega
    | e :: t, _ => exact ⟨_, rfl⟩
  · exact ⟨_, rfl⟩

theorem bounded_put_get {α : Type} (m : List (String × α)) (k : String) (v : α)
    (N : Nat) (out : List (String × α)) (h : _bounded_put m k v N = some out) :
    dictGet out k = some v := by
  unfold _bounded_put at h
  split at h
  · match m, h with
    | [], h => exact absurd h (by simp)
    | e :: t, h =>
      obtain rfl : dictSet t k v = out := by injection h
      exact dictGet_dictSet_self t k v
  · obtain rfl : dictSet m k v = out := by injection h
    exact dictGet_dictSet_self m k v

theorem putSeq_ok {α : Type} (v : α) (N : Nat) (hN : 1 ≤ N) :
    ∀ (ks : List String) (acc : List (String × α)), acc.length ≤ N →
      ∃ out, putSeq N v ks acc = some out ∧ out.length ≤ N := by
  intro ks
  induction ks with
  | nil => exact fun acc hacc => ⟨acc, rfl, hacc⟩
  | cons k ks ih =>
    intro acc hacc
    obtain ⟨acc', hacc'⟩ := bounded_put_exists acc k v N hN
    obtain ⟨out, hout, hlen⟩ := ih acc' (bounded_put_length_le acc k v N acc' hacc hacc')
    refine ⟨out, ?_, hlen⟩
    simp only [putSeq, hacc']
    exact hout

/-- C9: the bounded-store size invariant: a `_bounded_put` on a cache of at
most `N` entries leaves at most `N` entries; a put on a full cache evicts
exactly the first (oldest) entry before binding the key; and inserting
`N + 1` distinct keys starting from empty never leaves more than `N`
entries. -/
theorem C9_bounded_put_size :
    (∀ (α : Type) (cache : List (String × α)) (k : String) (v : α) (N : Nat)
        (out : List (String × α)), cache.length ≤ N →
        _bounded_put cache k v N = some out → out.length ≤ N) ∧
    (∀ (α : Type) (e : String × α) (t : List (String × α)) (k : String) (v : α) (N : Nat),
        N ≤ (e :: t).length → _bounded_put (e :: t) k v N = some (dictSet t k v)) ∧
    (∀ (α : Type) (v : α) (N : Nat) (ks : List String), 1 ≤ N → ks.length = N + 1 →
        ks.Nodup → ∃ out, putSeq N v ks [] = some out ∧ out.length ≤ N) := by
  refine ⟨fun α cache k v N out h1 h2 => bounded_put_length_le cache k v N out h1 h2,
    fun α e t k v N hfull => ?_, fun α v N ks hN _ _ => putSeq_ok v N hN ks [] (by simp)⟩
  unfold _bounded_put
  rw [if_pos hfull]

theorem C9_bounded_put_size_witness :
    (([("a", 1)] : List (String × Nat)).length ≤ 1 ∧
      _bounded_put [("a", 1)] "b" 2 1 = some [("b", 2)] ∧ [("b", 2)].length ≤ 1) ∧
    (1 ≤ ([("a", 1)] : List (String × Nat)).length ∧
      _bounded_put [("a", 1)] "b" 2 1 = some (dictSet [] "b" 2)) ∧
    (1 ≤ 1 ∧ (["x", "y"] : List String).length = 1 + 1 ∧ (["x", "y"] : List String).Nodup ∧
      ∃ out, putSeq 1 (0 : Nat) ["x", "y"] [] = some out ∧ out.length ≤ 1) :=
  ⟨⟨by decide, by decide,
      C9_bounded_put_size.1 Nat [("a", 1)] "b" 2 1 [("b", 2)] (by decide) (by decide)⟩,
    ⟨by decide, C9_bounded_put_size.2.1 Nat ("a", 1) [] "b" 2 1 (by decide)⟩,
    by decide, by decide, by decide,
    C9_bounded_put_size.2.2 Nat 0 1 ["x", "y"] (by decide) (by decide) (by decide)⟩

/-- C2 counterexample: the original claim says `get_units_map` returns a
mapping for EVERY state of the backing units file, but a present units file
that is not a flat mapping (here a JSON array) makes it raise `ValueError`. -/
theorem C2_units_counterexample :
    get_units_map (fun _ => some (JValue.arr [])) 1 0 [] =
      (Except.error (Failure.malformed "units file must be an object/map"), []) := rfl

/-- C2 (amended): starting from an empty units cache, for every backing
units-file state that is absent or a flat mapping, `get_units_map` returns a
mapping; in particular, when the units file is absent it returns the empty
mapping and caches that empty mapping under the singleton key `"units"`. -/
theorem C2_units_amended (fs : String → Option JValue) (ttl now : ℚ)
    (h : fs UNITS_FILE = none ∨ ∃ m, fs UNITS_FILE = some (JValue.obj m)) :
    (∃ m' c', get_units_map fs ttl now [] = (Except.ok m', c')) ∧
    (fs UNITS_FILE = none →
      get_units_map fs ttl now [] = (Except.ok [], [("units", ⟨[], now⟩)])) := by
  have hfresh : ¬(cache_fresh (dictGet ([] : List (String × CacheEntry JObj)) "units") ttl now = true) := by
    simp [dictGet, cache_fresh]
  constructor
  · rcases h with h | ⟨m, h⟩
    · have he : get_units_map fs ttl now [] = (Except.ok [], dictSet [] "units" ⟨[], now⟩) := by
        unfold get_units_map
        rw [if_neg hfresh, h]
      exact ⟨[], _, he⟩
    · have he : get_units_map fs ttl now [] = (Except.ok m, dictSet [] "units" ⟨m, now⟩) := by
        unfold get_units_map
        rw [if_neg hfresh, h]
      exact ⟨m, _, he⟩
  · intro h
    unfold get_units_map
    rw [if_neg hfresh, h]
    rfl

theorem C2_units_amended_witness :
    ((fun _ => none : String → Option JValue) UNITS_FILE = none ∨
      ∃ m, (fun _ => none : String → Option JValue) UNITS_FILE = some (JValue.obj m)) ∧
    ((∃ m' c', get_units_map (fun _ => none) 1 0 [] = (Except.ok m', c')) ∧
      ((fun _ => none : String → Option JValue) UNITS_FILE = none →
        get_units_map (fun _ => none) 1 0 [] = (Except.ok [], [("units", ⟨[], 0⟩)]))) :=
  ⟨Or.inl rfl, C2_units_amended (fun _ => none) 1 0 (Or.inl rfl)⟩

theorem desc_go_malformed_preserves (fs : String → Option JValue) (ttl now : ℚ)
    (cache : List (String × CacheEntry JObj)) :
    ∀ (cands : List (Option String)) (tried : List String) (msg : String)
      (c' : List (String × CacheEntry JObj)),
      desc_go fs ttl now cache cands tried = (Except.error (Failure.malformed msg), c') →
      c' = cache := by
  intro cands
  induction cands with
  | nil =>
    intro tried msg c' h
    rw [desc_go, Prod.mk.injEq] at h
    exact absurd h.1 (by simp)
  | cons c rest ih =>
    intro tried msg c' h
    cases c with
    | none => exact ih tried msg c' h
    | some cand =>
      rw [desc_go] at h
      split at h
      · exact ih tried msg c' h
      · split at h
        · rw [Prod.mk.injEq] at h
          exact absurd h.1 (by simp)
        · split at h
          · rw [Prod.mk.injEq] at h
            exact absurd h.1 (by simp)
          · rw [Prod.mk.injEq] at h
            exact h.2.symm
          · exact ih (cand :: tried) msg c' h

/-- C4: a loaded resource that exists but is not the expected flat-mapping
shape makes each loader raise a `ValueError`-style failure, distinct from the
not-found signal, and the call leaves every cache exactly as it found it (in
particular the malformed value is never cached).  The first conjunct states
the distinctness of the two signals, the second that any malformed failure of
`get_descriptions` leaves the cache untouched, and the remaining three that a
present-but-non-mapping file actually produces that failure (with the caches
unchanged) in `get_descriptions`, `get_units_map` and `get_data_map`. -/
theorem C4_malformed_distinct_uncached :
    (∀ msg, Failure.malformed msg ≠ Failure.notFound) ∧
    (∀ (fs : String → Option JValue) (dflt : String) (ttl now : ℚ)
        (cache : List (String × CacheEntry JObj)) (lang msg : String)
        (c' : List (String × CacheEntry JObj)),
        get_descriptions fs dflt ttl now cache lang =
          (Except.error (Failure.malformed msg), c') → c' = cache) ∧
    (∀ (fs : String → Option JValue) (dflt : String) (ttl now : ℚ)
        (cache : List (String × CacheEntry JObj)) (lang : String) (v : JValue),
        lang ≠ "" → cache_fresh (dictGet cache lang) ttl now = false →
        fs (_path_for_i18n lang) = some v → v.isObj = false →
        get_descriptions fs dflt ttl now cache lang =
          (Except.error (Failure.malformed "i18n file must be an object/map"), cache)) ∧
    (∀ (fs : String → Option JValue) (ttl now : ℚ)
        (cache : List (String × CacheEntry JObj)) (v : JValue),
        cache_fresh (dictGet cache "units") ttl now = false →
        fs UNITS_FILE = some v → v.isObj = false →
        get_units_map fs ttl now cache =
          (Except.error (Failure.malformed "units file must be an object/map"), cache)) ∧
    (∀ (fs : String → Option JValue) (ttl : ℚ) (maxData maxMiss : Nat) (now : ℚ)
        (st : DataState) (item_id : String) (v : JValue),
        miss_active st item_id now = false →
        cache_fresh (dictGet st.dataCache item_id) ttl now = false →
        validId item_id = true →
        fs (_path_for_data item_id) = some v → v.isObj = false →
        get_data_map fs ttl maxData maxMiss now st item_id =
          (Except.error (Failure.malformed "data file must be an object/map"), st)) := by
  refine ⟨fun msg => by simp,
    fun fs dflt ttl now cache lang msg c' h =>
      desc_go_malformed_preserves fs ttl now cache _ [] msg c' h,
    fun fs dflt ttl now cache lang v hne hfresh hfs hobj => ?_,
    fun fs ttl now cache v hfresh hfs hobj => ?_,
    fun fs ttl maxData maxMiss now st item_id v hmiss hfresh hvalid hfs hobj => ?_⟩
  · unfold get_descriptions
    rw [desc_go]
    rw [if_neg (by simp [hne]), if_neg (by simp [hfresh]), hfs]
    cases v <;> first | rfl | simp [JValue.isObj] at hobj
  · unfold get_units_map
    rw [if_neg (by simp [hfresh]), hfs]
    cases v <;> first | rfl | simp [JValue.isObj] at hobj
  · unfold get_data_map
    rw [if_neg (by simp [hmiss]), if_neg (by simp [hfresh]), if_pos hvalid, hfs]
    cases v <;> first | rfl | simp [JValue.isObj] at hobj

theorem C4_malformed_distinct_uncached_witness :
    (cache_fresh (dictGet ([] : List (String × CacheEntry JObj)) "units") 1 0 = false ∧
      (fun _ => some (JValue.str "zz") : String → Option JValue) UNITS_FILE =
        some (JValue.str "zz") ∧
      (JValue.str "zz").isObj = false) ∧
    get_units_map (fun _ => some (JValue.str "zz")) 1 0 [] =
      (Except.error (Failure.malformed "units file must be an object/map"), []) :=
  ⟨⟨rfl, rfl, rfl⟩,
    C4_malformed_distinct_uncached.2.2.2.1 (fun _ => some (JValue.str "zz")) 1 0 []
      (JValue.str "zz") rfl rfl rfl⟩

/-- C10: when the data file loads as an object whose `"data"` field is
present but falsy, `get_data_map` returns and caches the empty mapping
instead of raising; a format error for the field is raised only when it is
truthy and not a mapping (and then the caches are left unchanged). -/
theorem C10_falsy_data_field (fs : String → Option JValue) (dataTTL : ℚ)
    (maxData maxMiss : Nat) (now : ℚ) (st : DataState) (item_id : String)
    (raw : JObj) (v : JValue)
    (hvalid : validId item_id = true) (hmiss : miss_active st item_id now = false)
    (hfresh : cache_fresh (dictGet st.dataCache item_id) dataTTL now = false)
    (hfs : fs (_path_for_data item_id) = some (JValue.obj raw))
    (hget : dictGet raw "data" = some v) :
    (v.truthy = false → 1 ≤ maxData →
      ∃ dc' mc', get_data_map fs dataTTL maxData maxMiss now st item_id =
          (Except.ok (some []), ⟨dc', mc'⟩) ∧
        dictGet dc' item_id = some ⟨[], now⟩) ∧
    (v.truthy = true → v.isObj = false →
      get_data_map fs dataTTL maxData maxMiss now st item_id =
        (Except.error (Failure.malformed "data must be an object/map"), st)) := by
  constructor
  · intro htr hmax
    have hpd : pyDataField raw = JValue.obj [] := by
      unfold pyDataField
      rw [hget]
      simp [htr]
    obtain ⟨dc', hdc⟩ := bounded_put_exists st.dataCache item_id ⟨[], now⟩ maxData hmax
    have he : get_data_map fs dataTTL maxData maxMiss now st item_id =
        (Except.ok (some []),
          ⟨dc',
            if (dictGet st.missCache item_id).isSome then dictPop st.missCache item_id
            else st.missCache⟩) := by
      unfold get_data_map
      rw [if_neg (by simp [hmiss]), if_neg (by simp [hfresh]), if_pos hvalid, hfs]
      simp only [data_file_case]
      rw [hpd]
      simp only [data_field_case]
      rw [hdc]
      rfl
    exact ⟨dc', _, he, bounded_put_get st.dataCache item_id ⟨[], now⟩ maxData dc' hdc⟩
  · intro htr hobj
    have hpd : pyDataField raw = v := by
      unfold pyDataField
      rw [hget]
      simp [htr]
    unfold get_data_map
    rw [if_neg (by simp [hmiss]), if_neg (by simp [hfresh]), if_pos hvalid, hfs]
    simp only [data_file_case]
    rw [hpd]
    cases v <;> first | rfl | simp [JValue.isObj] at hobj

theorem C10_falsy_data_field_witness :
    (validId "ab12" = true ∧
      dictGet [("data", JValue.null)] "data" = some JValue.null ∧
      JValue.null.truthy = false) ∧
    (∃ dc' mc',
      get_data_map (fun _ => some (JValue.obj [("data", JValue.null)])) 600 1000 5000 0
          ⟨[], []⟩ "ab12" = (Except.ok (some []), ⟨dc', mc'⟩) ∧
        dictGet dc' "ab12" = some ⟨[], 0⟩) :=
  ⟨⟨rfl, rfl, rfl⟩,
    (C10_falsy_data_field (fun _ => some (JValue.obj [("data", JValue.null)])) 600 1000 5000 0
        ⟨[], []⟩ "ab12" [("data", JValue.null)] JValue.null rfl rfl rfl rfl rfl).1 rfl
      (by decide)⟩

/-- C8: for an identifier whose data file is absent (reached through the
caches), `get_data_map` reports absence as `ok none` and records a
negative-cache entry expiring at `now + min(60, TTL)` while leaving the
positive cache unchanged; while an unexpired miss record exists the call
returns absence immediately with the whole state unchanged (for any
filesystem, i.e. without loading); and a successful load leaves no
negative-cache record for the identifier. -/
theorem C8_negative_cache :
    (∀ (fs : String → Option JValue) (dataTTL : ℚ) (maxData maxMiss : Nat) (now : ℚ)
        (st : DataState) (item_id : String),
        validId item_id = true → miss_active st item_id now = false →
        cache_fresh (dictGet st.dataCache item_id) dataTTL now = false →
        fs (_path_for_data item_id) = none → 1 ≤ maxMiss →
        ∃ mc', get_data_map fs dataTTL maxData maxMiss now st item_id =
            (Except.ok none, ⟨st.dataCache, mc'⟩) ∧
          dictGet mc' item_id = some (now + min 60 dataTTL)) ∧
    (∀ (fs : String → Option JValue) (dataTTL : ℚ) (maxData maxMiss : Nat) (now : ℚ)
        (st : DataState) (item_id : String),
        miss_active st item_id now = true →
        get_data_map fs dataTTL maxData maxMiss now st item_id = (Except.ok none, st)) ∧
    (∀ (fs : String → Option JValue) (dataTTL : ℚ) (maxData maxMiss : Nat) (now : ℚ)
        (st : DataState) (item_id : String) (raw : JObj) (dm : JObj),
        validId item_id = true → miss_active st item_id now = false →
        cache_fresh (dictGet st.dataCache item_id) dataTTL now = false →
        fs (_path_for_data item_id) = some (JValue.obj raw) →
        pyDataField raw = JValue.obj dm → 1 ≤ maxData →
        ∃ dc' mc', get_data_map fs dataTTL maxData maxMiss now st item_id =
            (Except.ok (some dm), ⟨dc', mc'⟩) ∧
          dictGet mc' item_id = none) := by
  refine ⟨fun fs dataTTL maxData maxMiss now st item_id hvalid hmiss hfresh hfs hmax => ?_,
    fun fs dataTTL maxData maxMiss now st item_id hmiss => ?_,
    fun fs dataTTL maxData maxMiss now st item_id raw dm hvalid hmiss hfresh hfs hpd hmax => ?_⟩
  · obtain ⟨mc', hmc⟩ :=
      bounded_put_exists st.missCache item_id (now + min 60 dataTTL) maxMiss hmax
    have he : get_data_map fs dataTTL maxData maxMiss now st item_id =
        (Except.ok none, ⟨st.dataCache, mc'⟩) := by
      unfold get_data_map
      rw [if_neg (by simp [hmiss]), if_neg (by simp [hfresh]), if_pos hvalid, hfs]
      simp only [data_file_case]
      rw [hmc]
      rfl
    exact ⟨mc',
      he, bounded_put_get st.missCache item_id (now + min 60 dataTTL) maxMiss mc' hmc⟩
  · unfold get_data_map
    rw [if_pos hmiss]
  · obtain ⟨dc', hdc⟩ := bounded_put_exists st.dataCache item_id ⟨dm, now⟩ maxData hmax
    have he : get_data_map fs dataTTL maxData maxMiss now st item_id =
        (Except.ok (some dm),
          ⟨dc',
            if (dictGet st.missCache item_id).isSome then dictPop st.missCache item_id
            else st.missCache⟩) := by
      unfold get_data_map
      rw [if_neg (by simp [hmiss]), if_neg (by simp [hfresh]), if_pos hvalid, hfs]
      simp only [data_file_case]
      rw [hpd]
      simp only [data_field_case]
      rw [hdc]
      rfl
    refine ⟨dc', _, he, ?_⟩
    by_cases hs : (dictGet st.missCache item_id).isSome
    · rw [if_pos hs]
      exact dictGet_dictPop_self st.missCache item_id
    · rw [if_neg hs]
      exact Option.not_isSome_iff_eq_none.mp hs

theorem C8_negative_cache_witness :
    (validId "ab12" = true ∧
      miss_active ⟨[], []⟩ "ab12" 0 = false ∧
      cache_fresh (dictGet (([] : List (String × CacheEntry JObj))) "ab12") 600 0 = false ∧
      (fun _ => none : String → Option JValue) (_path_for_data "ab12") = none ∧
      1 ≤ 5000) ∧
    (∃ mc', get_data_map (fun _ => none) 600 1000 5000 0 ⟨[], []⟩ "ab12" =
        (Except.ok none, ⟨[], mc'⟩) ∧
      dictGet mc' "ab12" = some (0 + min 60 600)) :=
  ⟨⟨rfl, rfl, rfl, rfl, by decide⟩,
    C8_negative_cache.1 (fun _ => none) 600 1000 5000 0 ⟨[], []⟩ "ab12" rfl rfl rfl rfl
      (by decide)⟩

theorem takeUntilChar_not_contains (c : Char) :
    ∀ d : List Char, (takeUntilChar c d).contains c = false := by
  intro d
  induction d with
  | nil => rfl
  | cons x r ih =>
    by_cases h : x = c
    · simp [takeUntilChar, h]
    · simp only [takeUntilChar, if_neg h]
      simp only [List.contains_cons, Bool.or_eq_false_iff]
      refine ⟨by simpa using Ne.symm h, ?_⟩
      exact ih

theorem takeUntilChar_of_not_contains (c : Char) :
    ∀ d : List Char, d.contains c = false → takeUntilChar c d = d := by
  intro d
  induction d with
  | nil => intro _; rfl
  | cons x r ih =>
    intro h
    by_cases hx : x = c
    · simp [List.contains_cons, hx] at h
    · simp only [List.contains_cons] at h
      simp only [takeUntilChar, if_neg hx]
      rw [ih (by simpa [Ne.symm hx] using h)]

theorem pyBase_of_no_dash (l : String) (h : hasDash l = false) : pyBase l = l := by
  obtain ⟨d⟩ := l
  unfold pyBase
  rw [takeUntilChar_of_not_contains '-' d h]

theorem pyBase_ne_of_dash (l : String) (h : hasDash l = true) : pyBase l ≠ l := by
  intro he
  have h1 : (pyBase l).data.contains '-' = false := takeUntilChar_not_contains '-' l.data
  rw [he] at h1
  unfold hasDash at h
  rw [h] at h1
  exact absurd h1 (by simp)

theorem pyBase_ne_empty (l : String) (c : Char) (r : List Char)
    (hd : l.data = c :: r) (hc : c ≠ '-') : pyBase l ≠ "" := by
  unfold pyBase
  rw [hd]
  simp only [takeUntilChar, if_neg hc]
  intro he
  have : (c :: takeUntilChar '-' r) = [] := by
    have := congrArg String.data he
    simp at this
  simp at this

theorem desc_go_eq_chain (fs : String → Option JValue) (ttl now : ℚ)
    (cache : List (String × CacheEntry JObj)) :
    ∀ (cands : List (Option String)) (tried : List String),
      desc_go fs ttl now cache cands tried =
        chain_run fs ttl now cache (stripCands cands tried) := by
  intro cands
  induction cands with
  | nil => intro tried; rfl
  | cons c rest ih =>
    intro tried
    cases c with
    | none =>
      rw [desc_go, stripCands]
      exact ih tried
    | some cand =>
      rw [desc_go, stripCands]
      by_cases hskip : cand = "" ∨ cand ∈ tried
      · rw [if_pos hskip, if_pos hskip]
        exact ih tried
      · rw [if_neg hskip, if_neg hskip, chain_run]
        by_cases hfresh : cache_fresh (dictGet cache cand) ttl now = true
        · rw [if_pos hfresh, if_pos hfresh]
        · rw [if_neg hfresh, if_neg hfresh]
          cases hfs : fs (_path_for_i18n cand) with
          | none => exact ih (cand :: tried)
          | some v => cases v <;> rfl

theorem chain_run_all_missing (fs : String → Option JValue) (ttl now : ℚ)
    (cache : List (String × CacheEntry JObj)) :
    ∀ L : List String,
      (∀ c ∈ L, cache_fresh (dictGet cache c) ttl now = false ∧
        fs (_path_for_i18n c) = none) →
      chain_run fs ttl now cache L = (Except.error Failure.noDescriptions, cache) := by
  intro L
  induction L with
  | nil => intro _; rfl
  | cons c rest ih =>
    intro h
    obtain ⟨hf, hn⟩ := h c (List.mem_cons_self _ _)
    rw [chain_run, if_neg (by simp [hf]), hn]
    exact ih (fun x hx => h x (List.mem_cons_of_mem _ hx))

theorem stripCands_eq_chainSpec (dflt lang : String)
    (h1 : lang ≠ "") (h2 : lang.data.head? ≠ some '-') (h3 : dflt ≠ "") :
    stripCands [some lang, if hasDash lang then some (pyBase lang) else none, some dflt] [] =
      descChainSpec dflt lang := by
  have hbase_ne_empty : hasDash lang = true → pyBase lang ≠ "" := by
    intro hd
    match hdata : lang.data with
    | [] => exact absurd (by obtain ⟨d⟩ := lang; simp at hdata; rw [hdata]) h1
    | c :: r =>
      refine pyBase_ne_empty lang c r hdata (fun hc => h2 ?_)
      rw [hdata, hc]
      rfl
  by_cases hd : hasDash lang = true
  · have hb_ne : pyBase lang ≠ lang := pyBase_ne_of_dash lang hd
    have hb_ne' : pyBase lang ≠ "" := hbase_ne_empty hd
    simp [stripCands, dedupAux, descChainSpec, dedupKeepFirst, hd, h1, h3, hb_ne, hb_ne']
  · have hb : pyBase lang = lang := pyBase_of_no_dash lang (by simpa using hd)
    simp [stripCands, dedupAux, descChainSpec, dedupKeepFirst, hd, h1, h3, hb]

/-- C7: for a language code `L` (nonempty, not beginning with the subtag
separator) and a nonempty default, `get_descriptions` behaves exactly as the
plain fallback loop over the deduplicated, order-preserving candidate chain
`[L, base of L if different, default]`, continuing to the next candidate only
on a not-found signal; and when every candidate in the chain is neither
cached fresh nor present on disk, it raises the fatal resolution failure
(leaving the cache unchanged) instead of returning a value. -/
theorem C7_desc_fallback_chain (fs : String → Option JValue) (dflt : String)
    (ttl now : ℚ) (cache : List (String × CacheEntry JObj)) (lang : String)
    (h1 : lang ≠ "") (h2 : lang.data.head? ≠ some '-') (h3 : dflt ≠ "") :
    get_descriptions fs dflt ttl now cache lang =
      chain_run fs ttl now cache (descChainSpec dflt lang) ∧
    ((∀ c ∈ descChainSpec dflt lang,
        cache_fresh (dictGet cache c) ttl now = false ∧ fs (_path_for_i18n c) = none) →
      get_descriptions fs dflt ttl now cache lang =
        (Except.error Failure.noDescriptions, cache)) := by
  have he : get_descriptions fs dflt ttl now cache lang =
      chain_run fs ttl now cache (descChainSpec dflt lang) := by
    unfold get_descriptions
    rw [desc_go_eq_chain, stripCands_eq_chainSpec dflt lang h1 h2 h3]
  exact ⟨he, fun h => by rw [he, chain_run_all_missing fs ttl now cache _ h]⟩

theorem C7_desc_fallback_chain_witness :
    ("de-CH" ≠ "" ∧ "de-CH".data.head? ≠ some '-' ∧ "en" ≠ "") ∧
    (get_descriptions (fun _ => none) "en" 1200 0 [] "de-CH" =
        chain_run (fun _ => none) 1200 0 [] (descChainSpec "en" "de-CH") ∧
      ((∀ c ∈ descChainSpec "en" "de-CH",
          cache_fresh (dictGet ([] : List (String × CacheEntry JObj)) c) 1200 0 = false ∧
            (fun _ => none : String → Option JValue) (_path_for_i18n c) = none) →
        get_descriptions (fun _ => none) "en" 1200 0 [] "de-CH" =
          (Except.error Failure.noDescriptions, []))) :=
  ⟨⟨by decide, by decide, by decide⟩,
    C7_desc_fallback_chain (fun _ => none) "en" 1200 0 [] "de-CH" (by decide) (by decide)
      (by decide)⟩


/-- C3 counterexample: with a canonical key order configured
(`CANON_KEYS = ["a"]`), the output is the canonical list verbatim, so the key
`"b"` present in the description input does not appear in the output at all —
the unconditional claim fails. -/
theorem C3_canon_counterexample :
    "b" ∈ ([("b", JValue.str "x")].map Prod.fst) ∧
    List.count "b" (_determine_output_keys ["a"] [("b", JValue.str "x")] [] []) = 0 := by
  constructor
  · simp
  · rfl

/-- C3 (amended): `_determine_output_keys` is deterministic for every
configuration and inputs (it is a pure function of them), and — when no
canonical key order is configured — every key present in any of the three
input mappings appears exactly once in the output sequence, and no other key
appears. -/
theorem C3_ordered_keys (canon : List String)
    (d v u : List (String × JValue)) (k : String) :
    _determine_output_keys canon d v u = _determine_output_keys canon d v u ∧
    List.count k (_determine_output_keys [] d v u) =
      (if k ∈ d.map Prod.fst ∨ k ∈ v.map Prod.fst ∨ k ∈ u.map Prod.fst then 1 else 0) := by
  refine ⟨rfl, ?_⟩
  have hout : _determine_output_keys [] d v u =
      Finset.sort (· ≤ ·) ((d.map Prod.fst).toFinset) ++
        Finset.sort (· ≤ ·) ((v.map Prod.fst).toFinset \ (d.map Prod.fst).toFinset) ++
        Finset.sort (· ≤ ·)
          (((u.map Prod.fst).toFinset \ (d.map Prod.fst).toFinset) \
            (v.map Prod.fst).toFinset) := by
    unfold _determine_output_keys
    rw [if_pos rfl]
  rw [hout]
  by_cases hk : k ∈ d.map Prod.fst ∨ k ∈ v.map Prod.fst ∨ k ∈ u.map Prod.fst
  · rw [if_pos hk]
    have hnodup :
        (Finset.sort (· ≤ ·) ((d.map Prod.fst).toFinset) ++
          Finset.sort (· ≤ ·) ((v.map Prod.fst).toFinset \ (d.map Prod.fst).toFinset) ++
          Finset.sort (· ≤ ·)
            (((u.map Prod.fst).toFinset \ (d.map Prod.fst).toFinset) \
              (v.map Prod.fst).toFinset)).Nodup := by
      refine List.Nodup.append (List.Nodup.append ?_ ?_ ?_) ?_ ?_
      · exact Finset.sort_nodup _ _
      · exact Finset.sort_nodup _ _
      · intro a ha hb
        rw [Finset.mem_sort] at ha hb
        rw [Finset.mem_sdiff] at hb
        exact hb.2 ha
      · exact Finset.sort_nodup _ _
      · intro a ha hb
        rw [List.mem_append, Finset.mem_sort, Finset.mem_sort] at ha
        rw [Finset.mem_sort, Finset.mem_sdiff, Finset.mem_sdiff] at hb
        rcases ha with ha | ha
        · exact hb.1.2 ha
        · rw [Finset.mem_sdiff] at ha
          exact hb.2 ha.1
    have hmem :
        k ∈ Finset.sort (· ≤ ·) ((d.map Prod.fst).toFinset) ++
          Finset.sort (· ≤ ·) ((v.map Prod.fst).toFinset \ (d.map Prod.fst).toFinset) ++
          Finset.sort (· ≤ ·)
            (((u.map Prod.fst).toFinset \ (d.map Prod.fst).toFinset) \
              (v.map Prod.fst).toFinset) := by
      simp only [List.mem_append, Finset.mem_sort, Finset.mem_sdiff, List.mem_toFinset]
      by_cases h1 : k ∈ d.map Prod.fst
      · exact Or.inl (Or.inl h1)
      · by_cases h2 : k ∈ v.map Prod.fst
        · exact Or.inl (Or.inr ⟨h2, h1⟩)
        · rcases hk with h | h | h
          · exact absurd h h1
          · exact absurd h h2
          · exact Or.inr ⟨⟨h, h1⟩, h2⟩
    exact List.count_eq_one_of_mem hnodup hmem
  · rw [if_neg hk]
    refine List.count_eq_zero_of_not_mem ?_
    intro hmem
    apply hk
    simp only [List.mem_append, Finset.mem_sort, Finset.mem_sdiff, List.mem_toFinset] at hmem
    rcases hmem with (h | h) | h
    · exact Or.inl h
    · exact Or.inr (Or.inl h.1)
    · exact Or.inr (Or.inr h.1.1)
